import Mathlib

/-!
Verification of the libui binding core and of the ProgressBar control.

The ProgressBar definitions are translated from src/ui/src/controls/progressbar.rs.
The ownership tracker, lifecycle coordinator, control facade and callback
registry are not present under src/ (only the crate root src/src/lib.rs and the
progress bar file are); those components are modelled from the specification,
and each such definition is marked in its doc comment.
-/

/-- Handle: an opaque native resource identifier, modelled as a natural
number. The toolkit null sentinel is 0. -/
abbrev Handle := Nat

/-- Modelled from the spec: the per-Handle ownership record of the Ownership
Tracker, one of Root, ParentOwned (carrying the owning parent Handle) or the
Destroyed tombstone. The tracker itself is not under src/. -/
inductive OwnRecord where
  | Root
  | ParentOwned (parent : Handle)
  | Destroyed
deriving DecidableEq

/-- Modelled from the spec: the error taxonomy of section 7. -/
inductive UIError where
  | AllocationFailed
  | AlreadyParented
  | NotOwner
  | UseAfterDestroy
deriving DecidableEq

/-- Native toolkit calls the binding issues, recorded symbolically. -/
inductive NativeCall where
  | showC (h : Handle)
  | hideC (h : Handle)
  | enableC (h : Handle)
  | disableC (h : Handle)
  | isEnabledC (h : Handle)
  | destroyC (h : Handle)
  | reparentC (child parent : Handle)
  | progressBarSetValueC (h : Handle) (v : Int)
deriving DecidableEq

/-- Modelled from the spec: the state of the Ownership Tracker together with
the trace of native destroy and reparent calls issued so far. created lists
the handles the toolkit has handed out, newest first. -/
structure OwnState where
  record : Handle → Option OwnRecord
  created : List Handle
  destroyCalls : List Handle
  reparentCalls : List (Handle × Handle)

/-- Modelled from the spec: the initial state, with no ownership records and
no native calls issued. -/
def initState : OwnState := ⟨fun _ => none, [], [], []⟩

/-- Modelled from the spec: whether h is a ParentOwned descendant of root,
following parent links for at most fuel steps. -/
def isDescend (rec : Handle → Option OwnRecord) : Nat → Handle → Handle → Bool
  | 0, _, _ => false
  | fuel + 1, root, h =>
    match rec h with
    | some (.ParentOwned p) => p == root || isDescend rec fuel root p
    | _ => false

/-- The operations of the ownership and lifecycle core: widget creation
(the toolkit assigns the next fresh handle), attach of a child to a parent
container, and root destruction. -/
inductive Op where
  | create
  | attach (child parent : Handle)
  | destroyRoot (h : Handle)

/-- Modelled from the spec: one step of the ownership and lifecycle core.
create registers the fresh toolkit handle as Root. attach requires the child
record to be Root, transitions it to ParentOwned and notifies the toolkit of
the reparent; otherwise it fails with AlreadyParented and changes nothing.
destroyRoot requires the record to be Root; it then marks the handle and all
its ParentOwned descendants Destroyed and issues the single native destroy
call for the root; on a ParentOwned record it fails with NotOwner, on a
Destroyed record with UseAfterDestroy, each leaving the state unchanged. -/
def step (st : OwnState) : Op → OwnState × Option UIError
  | .create =>
    ({ st with
        record := Function.update st.record (st.created.length + 1) (some .Root),
        created := (st.created.length + 1) :: st.created }, none)
  | .attach c p =>
    match st.record c with
    | some .Root =>
      ({ st with
          record := Function.update st.record c (some (.ParentOwned p)),
          reparentCalls := (c, p) :: st.reparentCalls }, none)
    | _ => (st, some .AlreadyParented)
  | .destroyRoot h =>
    match st.record h with
    | some .Root =>
      ({ st with
          record := fun x =>
            if x == h || isDescend st.record st.created.length h x then some .Destroyed
            else st.record x,
          destroyCalls := h :: st.destroyCalls }, none)
    | some (.ParentOwned _) => (st, some .NotOwner)
    | some .Destroyed => (st, some .UseAfterDestroy)
    | none => (st, some .NotOwner)

/-- Run a sequence of operations from the initial state; operations whose
precondition fails leave the state unchanged, so every operation list is a
sequence reachable without violating the ownership preconditions. -/
def run (ops : List Op) : OwnState :=
  ops.foldl (fun st op => (step st op).1) initState

/-- The capability set of the Control Facade (as_control, the identity
upcast, excluded). -/
inductive FacadeOp where
  | showOp
  | hideOp
  | enableOp
  | disableOp
  | isEnabledOp
  | destroyOp
deriving DecidableEq

/-- The native call each facade operation delegates to. -/
def opCall : FacadeOp → Handle → NativeCall
  | .showOp, h => .showC h
  | .hideOp, h => .hideC h
  | .enableOp, h => .enableC h
  | .disableOp, h => .disableC h
  | .isEnabledOp, h => .isEnabledC h
  | .destroyOp, h => .destroyC h

/-- Modelled from the spec: a Control Facade operation checks liveness before
every native call, failing with UseAfterDestroy on a Destroyed record;
destroy additionally requires the record to be Root, failing with NotOwner
otherwise. On success it returns the native call it issues. The facade
implementation is not under src/. -/
def facadeCall (st : OwnState) (op : FacadeOp) (h : Handle) : Except UIError NativeCall :=
  if st.record h = some .Destroyed then .error .UseAfterDestroy
  else
    match op with
    | .destroyOp =>
      match st.record h with
      | some .Root => .ok (.destroyC h)
      | _ => .error .NotOwner
    | o => .ok (opCall o h)

/-- Modelled from the spec: a host closure stored by the Callback Registry,
carrying an identity (so invocations can be counted) and its behavior on the
event arguments. -/
structure Closure where
  id : Nat
  fn : Nat → Nat

/-- Modelled from the spec: the Callback Registry, a map keyed by
(handle, event kind). The registry implementation is not under src/. -/
structure Registry where
  entries : List ((Handle × Nat) × Closure)

/-- Modelled from the spec: register stores the closure keyed by
(handle, event kind), replacing any previous entry for the same key. -/
def Registry.register (reg : Registry) (h ek : Nat) (c : Closure) : Registry :=
  ⟨((h, ek), c) :: reg.entries.filter (fun e => !(e.1.1 == h && e.1.2 == ek))⟩

/-- Look up the entry stored for (handle, event kind). -/
def Registry.lookupEntry (reg : Registry) (h ek : Nat) : Option Closure :=
  (reg.entries.find? (fun e => e.1.1 == h && e.1.2 == ek)).map (fun e => e.2)

/-- Modelled from the spec: purge removes all entries for a Handle. -/
def Registry.purge (reg : Registry) (h : Nat) : Registry :=
  ⟨reg.entries.filter (fun e => !(e.1.1 == h))⟩

/-- Modelled from the spec: invoke looks up the entry for (handle, event kind)
and, if present and the ownership record is not Destroyed, calls the closure
with args and propagates its return value; if absent or Destroyed it calls no
closure and returns the default (allow) value dflt of the event. The result
pairs the identities of the closures called with the value returned to the
trampoline. -/
def invoke (rec : Option OwnRecord) (reg : Registry) (h ek args dflt : Nat) :
    List Nat × Nat :=
  match reg.lookupEntry h ek with
  | some c => if rec = some .Destroyed then ([], dflt) else ([c.id], c.fn args)
  | none => ([], dflt)

/-- The ProgressBar wrapper from src/ui/src/controls/progressbar.rs: the
struct produced by the define_control macro holds the raw uiProgressBar
handle (the field name appears at lines 102 and 107 of the source). -/
structure ProgressBar where
  uiProgressBar : Handle
deriving DecidableEq

/-- ProgressBarValue from progressbar.rs lines 37 to 46: either Determinate
with a u32 payload (modelled as Nat) or Indeterminate. -/
inductive ProgressBarValue where
  | Determinate (value : Nat)
  | Indeterminate
deriving DecidableEq

/-- The From u32 conversion, progressbar.rs lines 48 to 56. -/
def ProgressBarValue.fromU32 (value : Nat) : ProgressBarValue :=
  if value ≤ 100 then .Determinate value else .Determinate 100

/-- The From of Option u32 conversion, progressbar.rs lines 58 to 65. -/
def ProgressBarValue.fromOptionU32 : Option Nat → ProgressBarValue
  | some v => .fromU32 v
  | none => .Indeterminate

/-- The Rust cast from u32 to i32, two complement wrap for values at or above
2 to the 31. -/
def castU32ToI32 (v : Nat) : Int :=
  if v < 2 ^ 31 then (v : Int) else (v : Int) - 2 ^ 32

/-- The i32 sys value computed inside ProgressBar set_value, progressbar.rs
lines 95 to 101: a Determinate payload is capped at 100 and cast to i32,
Indeterminate becomes minus one. -/
def sysValueOf : ProgressBarValue → Int
  | .Determinate value => castU32ToI32 (if value > 100 then 100 else value)
  | .Indeterminate => -1

/-- ProgressBar set_value, progressbar.rs lines 94 to 103: computes the sys
value and unconditionally issues the native uiProgressBarSetValue call on the
wrapped handle. The function returns unit in the source and has no error
path; here it returns the native call it issues. -/
def ProgressBar.set_value (pb : ProgressBar) (value : ProgressBarValue) : NativeCall :=
  .progressBarSetValueC pb.uiProgressBar (sysValueOf value)

/-- set_value applied through the Into instance for u32. -/
def ProgressBar.set_value_u32 (pb : ProgressBar) (v : Nat) : NativeCall :=
  pb.set_value (ProgressBarValue.fromU32 v)

/-- set_value applied through the Into instance for Option u32. -/
def ProgressBar.set_value_opt (pb : ProgressBar) (o : Option Nat) : NativeCall :=
  pb.set_value (ProgressBarValue.fromOptionU32 o)

/-- from_raw, produced by the define_control macro (the macro body is not
under src/): wraps the raw handle in the struct, performing no null check.
Its Rust signature returns ProgressBar, not a Result. -/
def ProgressBar.from_raw (raw : Handle) : ProgressBar := ⟨raw⟩

/-- The toolkit null sentinel handle. -/
def uiNULL : Handle := 0

/-- ProgressBar new, progressbar.rs lines 81 to 83: wraps whatever handle the
uiNewProgressBar allocator returned, via from_raw, unconditionally. The
parameter stands for the handle the toolkit returned. -/
def ProgressBar.new (uiNewProgressBarResult : Handle) : ProgressBar :=
  ProgressBar.from_raw uiNewProgressBarResult

/-- Modelled from the spec: the Lifecycle Coordinator creation protocol of
section 4.5, which is not under src/: request a Handle from the toolkit, fail
fast with AllocationFailed if it is the null sentinel, otherwise construct
the wrapper and register the ownership record as Root. -/
def createWidget (st : OwnState) (toolkitHandle : Handle) :
    Except UIError (ProgressBar × OwnState) :=
  if toolkitHandle = uiNULL then .error .AllocationFailed
  else .ok (ProgressBar.from_raw toolkitHandle,
    { st with
        record := Function.update st.record toolkitHandle (some .Root),
        created := toolkitHandle :: st.created })

/-- A handle beyond the number of handles created so far has no ownership
record. -/
def Fresh (st : OwnState) : Prop :=
  ∀ h, st.created.length < h → st.record h = none

/-- Per handle, at most one native destroy call has been issued, and none at
all unless the record is the Destroyed tombstone. -/
def DestroyOnce (st : OwnState) : Prop :=
  ∀ h, st.destroyCalls.count h ≤ 1 ∧
    (st.record h ≠ some .Destroyed → st.destroyCalls.count h = 0)

/-- The invariant the ownership and lifecycle core maintains. -/
def CoreInv (st : OwnState) : Prop := Fresh st ∧ DestroyOnce st

theorem isDescend_none {rec : Handle → Option OwnRecord} {fuel root h : Nat}
    (hn : rec h = none) : isDescend rec fuel root h = false := by
  cases fuel <;> simp [isDescend, hn]

theorem coreInv_initState : CoreInv initState := by
  refine ⟨fun h _ => rfl, fun h => ⟨by simp [initState], fun _ => by simp [initState]⟩⟩

theorem step_inv (st : OwnState) (op : Op) (hinv : CoreInv st) : CoreInv (step st op).1 := by
  obtain ⟨hf, hd⟩ := hinv
  cases op with
  | create =>
    constructor
    · intro x hx
      simp only [step, List.length_cons] at hx ⊢
      have hne : ¬ (x = st.created.length + 1) := by omega
      rw [Function.update_apply, if_neg hne]
      exact hf x (by omega)
    · intro x
      simp only [step]
      refine ⟨(hd x).1, fun hx => ?_⟩
      by_cases hc : x = st.created.length + 1
      · subst hc
        refine (hd _).2 ?_
        rw [hf _ (Nat.lt_succ_self _)]
        simp
      · rw [Function.update_apply, if_neg hc] at hx
        exact (hd x).2 hx
  | attach c p =>
    rcases hrc : st.record c with _ | r
    · simpa [step, hrc] using ⟨hf, hd⟩
    · cases r with
      | Root =>
        constructor
        · intro x hx
          simp only [step, hrc] at hx ⊢
          have hne : ¬ (x = c) := by
            intro he
            subst he
            rw [hf x hx] at hrc
            exact Option.noConfusion hrc
          rw [Function.update_apply, if_neg hne]
          exact hf x hx
        · intro x
          simp only [step, hrc]
          refine ⟨(hd x).1, fun hx => ?_⟩
          by_cases hc : x = c
          · subst hc
            refine (hd x).2 ?_
            rw [hrc]
            simp
          · rw [Function.update_apply, if_neg hc] at hx
            exact (hd x).2 hx
      | ParentOwned q => simpa [step, hrc] using ⟨hf, hd⟩
      | Destroyed => simpa [step, hrc] using ⟨hf, hd⟩
  | destroyRoot h =>
    rcases hrc : st.record h with _ | r
    · simpa [step, hrc] using ⟨hf, hd⟩
    · cases r with
      | Root =>
        constructor
        · intro x hx
          simp only [step, hrc] at hx ⊢
          have hx0 : st.record x = none := hf x hx
          have hne : (x == h) = false := by
            refine beq_eq_false_iff_ne.mpr ?_
            intro he
            subst he
            rw [hx0] at hrc
            exact Option.noConfusion hrc
          rw [hne, isDescend_none hx0]
          simpa using hx0
        · intro x
          simp only [step, hrc]
          by_cases hc : x = h
          · subst hc
            have h0 : st.destroyCalls.count x = 0 := (hd x).2 (by rw [hrc]; simp)
            refine ⟨?_, ?_⟩
            · rw [List.count_cons_self, h0]
            · intro hcontra
              exfalso
              apply hcontra
              simp
          · have hcount : (h :: st.destroyCalls).count x = st.destroyCalls.count x :=
              List.count_cons_of_ne hc _
            refine ⟨?_, ?_⟩
            · rw [hcount]
              exact (hd x).1
            · intro hx
              rw [hcount]
              refine (hd x).2 ?_
              intro hxd
              apply hx
              cases hcond : (x == h || isDescend st.record st.created.length h x) <;>
                simp [hcond, hxd]
      | ParentOwned q => simpa [step, hrc] using ⟨hf, hd⟩
      | Destroyed => simpa [step, hrc] using ⟨hf, hd⟩

theorem run_inv (ops : List Op) : CoreInv (run ops) := by
  have key : ∀ st, CoreInv st → CoreInv (ops.foldl (fun s o => (step s o).1) st) := by
    induction ops with
    | nil => exact fun st h => h
    | cons o os ih => exact fun st h => ih _ (step_inv st o h)
  exact key initState coreInv_initState

/-- C1: for every Handle and any sequence of create, attach and destroy
operations (an operation whose ownership precondition fails leaves the state
unchanged), at most one native destroy call has ever been issued for that
Handle, and none at all unless its record is the Destroyed tombstone;
moreover whenever the destroy path runs (destroyRoot succeeds), no native
destroy call had been issued for that Handle before and exactly one has been
issued after, so the destroy path is never reachable twice for the same
Handle. -/
theorem destroy_call_at_most_once (ops : List Op) (h : Handle) :
    (run ops).destroyCalls.count h ≤ 1 ∧
    ((run ops).record h ≠ some .Destroyed → (run ops).destroyCalls.count h = 0) ∧
    ((step (run ops) (.destroyRoot h)).2 = none →
      (run ops).destroyCalls.count h = 0 ∧
      (step (run ops) (.destroyRoot h)).1.destroyCalls.count h = 1) := by
  obtain ⟨hf, hd⟩ := run_inv ops
  refine ⟨(hd h).1, (hd h).2, fun hs => ?_⟩
  rcases hrc : (run ops).record h with _ | r
  · simp [step, hrc] at hs
  · cases r with
    | Root =>
      have h0 : (run ops).destroyCalls.count h = 0 := (hd h).2 (by rw [hrc]; simp)
      refine ⟨h0, ?_⟩
      simp only [step, hrc]
      rw [List.count_cons_self, h0]
    | ParentOwned q => simp [step, hrc] at hs
    | Destroyed => simp [step, hrc] at hs

/-- C2: attach(child, parent) succeeds exactly when the child record is Root:
it then transitions the child to ParentOwned(parent), changes no other
record, and notifies the toolkit of the reparent; on any other record it
fails with AlreadyParented and leaves the state unchanged. -/
theorem attach_requires_root (st : OwnState) (c p : Handle) :
    (st.record c = some .Root →
      (step st (.attach c p)).2 = none ∧
      (step st (.attach c p)).1.record c = some (.ParentOwned p) ∧
      (∀ x, x ≠ c → (step st (.attach c p)).1.record x = st.record x) ∧
      (step st (.attach c p)).1.reparentCalls = (c, p) :: st.reparentCalls) ∧
    (st.record c ≠ some .Root →
      (step st (.attach c p)).2 = some .AlreadyParented ∧
      (step st (.attach c p)).1 = st) := by
  constructor
  · intro hc
    refine ⟨by simp [step, hc], ?_, ?_, by simp [step, hc]⟩
    · simp only [step, hc]
      rw [Function.update_apply, if_pos rfl]
    · intro x hx
      simp only [step, hc]
      rw [Function.update_apply, if_neg hx]
  · intro hc
    rcases hrc : st.record c with _ | r
    · simp [step, hrc]
    · cases r with
      | Root => exact absurd hrc hc
      | ParentOwned q => simp [step, hrc]
      | Destroyed => simp [step, hrc]

/-- C3: destroying a ParentOwned control directly fails with NotOwner and
changes nothing; destroying the Root container it descends from succeeds,
marks the descendant Destroyed, and afterwards every facade operation on the
descendant fails with UseAfterDestroy. -/
theorem destroy_parent_owned (st : OwnState) (c r p : Handle)
    (hc : st.record c = some (.ParentOwned p))
    (hr : st.record r = some .Root)
    (hdesc : isDescend st.record st.created.length r c = true) :
    (step st (.destroyRoot c)).2 = some .NotOwner ∧
    (step st (.destroyRoot c)).1 = st ∧
    (step st (.destroyRoot r)).2 = none ∧
    (step st (.destroyRoot r)).1.record c = some .Destroyed ∧
    (∀ fop, facadeCall (step st (.destroyRoot r)).1 fop c =
      .error .UseAfterDestroy) := by
  refine ⟨by simp [step, hc], by simp [step, hc], by simp [step, hr], ?_, ?_⟩
  · simp [step, hr, hdesc]
  · have hdc : (step st (.destroyRoot r)).1.record c = some .Destroyed := by
      simp [step, hr, hdesc]
    intro fop
    simp [facadeCall, hdc]

/-- C3 witness at a concrete reachable state: handles 1 and 2 are created and
2 is attached to 1; destroying 2 directly fails with NotOwner, while after
destroying 1 the show operation on 2 fails with UseAfterDestroy. -/
theorem destroy_parent_owned_w :
    (step (run [Op.create, Op.create, Op.attach 2 1]) (Op.destroyRoot 2)).2 =
      some UIError.NotOwner ∧
    facadeCall (step (run [Op.create, Op.create, Op.attach 2 1]) (Op.destroyRoot 1)).1
      FacadeOp.showOp 2 = Except.error UIError.UseAfterDestroy := by
  have h := destroy_parent_owned (run [Op.create, Op.create, Op.attach 2 1]) 2 1 1
    (by decide) (by decide) (by decide)
  exact ⟨h.1, h.2.2.2.2 FacadeOp.showOp⟩

/-- C4 counterexample: in a reachable state handle 1 is Destroyed, yet
ProgressBar set_value on a wrapper of handle 1 still issues the native
uiProgressBarSetValue call, returning no UseAfterDestroy error: the setter in
the source performs no liveness check before its native call. -/
theorem set_value_no_liveness_check :
    (run [Op.create, Op.destroyRoot 1]).record 1 = some OwnRecord.Destroyed ∧
    ProgressBar.set_value ⟨1⟩ (ProgressBarValue.Determinate 50) =
      NativeCall.progressBarSetValueC 1 50 := by
  exact ⟨by decide, by decide⟩

/-- C4 amended: the Control Facade operations (modelled from the spec) check
liveness first: on a Destroyed record every one of them fails with
UseAfterDestroy and issues no native call, and on a live record every
operation other than destroy issues its native call; the widget setter
ProgressBar set_value, however, as implemented in the source performs no
liveness check: it unconditionally issues the native uiProgressBarSetValue
call on the wrapped handle and has no error path. -/
theorem facade_liveness_except_set_value (st : OwnState) (h : Handle)
    (pb : ProgressBar) (v : ProgressBarValue) :
    (st.record h = some .Destroyed →
      ∀ fop, facadeCall st fop h = .error .UseAfterDestroy) ∧
    (st.record h ≠ some .Destroyed →
      ∀ fop, fop ≠ .destroyOp → facadeCall st fop h = .ok (opCall fop h)) ∧
    ProgressBar.set_value pb v =
      .progressBarSetValueC pb.uiProgressBar (sysValueOf v) := by
  refine ⟨fun hd fop => by simp [facadeCall, hd], fun hd fop => ?_, rfl⟩
  have hnd : ¬ (st.record h = some OwnRecord.Destroyed) := hd
  cases fop with
  | destroyOp => exact fun hne => absurd rfl hne
  | showOp => exact fun _ => by simp [facadeCall, hnd, opCall]
  | hideOp => exact fun _ => by simp [facadeCall, hnd, opCall]
  | enableOp => exact fun _ => by simp [facadeCall, hnd, opCall]
  | disableOp => exact fun _ => by simp [facadeCall, hnd, opCall]
  | isEnabledOp => exact fun _ => by simp [facadeCall, hnd, opCall]

/-- C5 counterexample: applied to the toolkit null sentinel, ProgressBar new
constructs and returns a wrapper carrying the null handle; its Rust return
type is ProgressBar, not a Result, so no AllocationFailed error is or can be
produced. -/
theorem new_wraps_null :
    ProgressBar.new uiNULL = ProgressBar.from_raw 0 ∧
    (ProgressBar.new uiNULL).uiProgressBar = uiNULL := ⟨rfl, rfl⟩

/-- C5 amended: the creation protocol modelled from the spec does fail fast
with the recoverable error AllocationFailed on the null sentinel and
registers the new widget as Root otherwise; but ProgressBar new as
implemented wraps whatever handle the toolkit returned, the null sentinel
included, and has no failure path. -/
theorem new_unconditional (raw : Handle) (st : OwnState) :
    ProgressBar.new raw = ProgressBar.from_raw raw ∧
    (raw = uiNULL → createWidget st raw = .error .AllocationFailed) ∧
    (raw ≠ uiNULL → ∃ st2,
      createWidget st raw = .ok (ProgressBar.from_raw raw, st2) ∧
      st2.record raw = some .Root) := by
  refine ⟨rfl, fun hz => by simp [createWidget, hz], fun hz => ?_⟩
  refine ⟨_, by rw [createWidget, if_neg hz], ?_⟩
  simp only
  rw [Function.update_apply, if_pos rfl]

/-- C6: registering a second closure for the same (handle, event kind) key
replaces the previous entry: the lookup afterward yields only the newly
registered closure, and invoking that event while the handle is live calls
exactly the new closure, exactly once, propagating its return value. -/
theorem register_overwrite (reg : Registry) (h ek : Nat) (c1 c2 : Closure)
    (rec : Option OwnRecord) (args dflt : Nat)
    (halive : rec ≠ some OwnRecord.Destroyed) :
    ((reg.register h ek c1).register h ek c2).lookupEntry h ek = some c2 ∧
    invoke rec ((reg.register h ek c1).register h ek c2) h ek args dflt =
      ([c2.id], c2.fn args) := by
  have hl : ((reg.register h ek c1).register h ek c2).lookupEntry h ek = some c2 := by
    simp [Registry.lookupEntry, Registry.register, List.find?_cons]
  refine ⟨hl, ?_⟩
  rw [invoke, hl]
  simp [halive]

/-- C6 witness: registering closure 1 and then closure 2 under key (1, 2) and
invoking with argument 5 calls only closure 2, exactly once, returning its
value 6. -/
theorem register_overwrite_w :
    invoke (some OwnRecord.Root)
      ((Registry.mk []).register 1 2 ⟨1, fun x => x⟩ |>.register 1 2 ⟨2, fun x => x + 1⟩)
      1 2 5 0 = ([2], 6) :=
  (register_overwrite (Registry.mk []) 1 2 ⟨1, fun x => x⟩ ⟨2, fun x => x + 1⟩
    (some OwnRecord.Root) 5 0 (by simp)).2

/-- C7: invoke calls the stored closure with the event arguments and
propagates its return value exactly when an entry for (handle, event kind) is
present and the ownership record is not Destroyed; when the entry is absent
or the record is Destroyed it calls no closure and returns the default allow
value of the event. -/
theorem invoke_cases (rec : Option OwnRecord) (reg : Registry) (h ek args dflt : Nat) :
    (∀ c, reg.lookupEntry h ek = some c → rec ≠ some OwnRecord.Destroyed →
      invoke rec reg h ek args dflt = ([c.id], c.fn args)) ∧
    (reg.lookupEntry h ek = none → invoke rec reg h ek args dflt = ([], dflt)) ∧
    (rec = some OwnRecord.Destroyed → invoke rec reg h ek args dflt = ([], dflt)) := by
  refine ⟨fun c hc hlive => ?_, fun hn => ?_, fun hdead => ?_⟩
  · rw [invoke, hc]
    simp [hlive]
  · rw [invoke, hn]
  · rcases hc : reg.lookupEntry h ek with _ | c
    · rw [invoke, hc]
    · rw [invoke, hc]
      simp [hdead]

/-- C8: for every u32 v, the From u32 conversion yields Determinate v when
v is at most 100 and Determinate 100 otherwise; its payload is min v 100,
never exceeding 100, and converting the payload again yields the same
result, so the conversion is the identity on already capped values. -/
theorem fromU32_caps (v : Nat) (hv : v < 2 ^ 32) :
    ProgressBarValue.fromU32 v = .Determinate (min v 100) ∧
    (v ≤ 100 → ProgressBarValue.fromU32 v = .Determinate v) ∧
    (100 < v → ProgressBarValue.fromU32 v = .Determinate 100) ∧
    min v 100 ≤ 100 ∧
    ProgressBarValue.fromU32 (min v 100) = ProgressBarValue.fromU32 v := by
  by_cases hle : v ≤ 100
  · have hm : min v 100 = v := Nat.min_eq_left hle
    rw [hm]
    exact ⟨by simp [ProgressBarValue.fromU32, hle], fun _ => by simp [ProgressBarValue.fromU32, hle],
      fun hgt => absurd hle (by omega), hle, rfl⟩
  · have hm : min v 100 = 100 := Nat.min_eq_right (by omega)
    rw [hm]
    refine ⟨by simp [ProgressBarValue.fromU32, hle], fun hc => absurd hc hle,
      fun _ => by simp [ProgressBarValue.fromU32, hle], le_refl 100, ?_⟩
    simp [ProgressBarValue.fromU32, hle]

/-- C8 witness at the concrete u32 input 150: the conversion caps it to
Determinate 100, the minimum of 150 and 100. -/
theorem fromU32_caps_w :
    ProgressBarValue.fromU32 150 = ProgressBarValue.Determinate (min 150 100) :=
  (fromU32_caps 150 (by norm_num)).1

/-- C9: the From of Option u32 conversion maps none to Indeterminate and
some v to the From u32 conversion of v; consequently set_value applied to
some v issues the same native call as set_value applied to v, and set_value
applied to none issues the same native call as set_value applied to
Indeterminate. -/
theorem fromOption_agrees (pb : ProgressBar) (v : Nat) :
    ProgressBarValue.fromOptionU32 none = ProgressBarValue.Indeterminate ∧
    ProgressBarValue.fromOptionU32 (some v) = ProgressBarValue.fromU32 v ∧
    pb.set_value_opt (some v) = pb.set_value_u32 v ∧
    pb.set_value_opt none = pb.set_value ProgressBarValue.Indeterminate := by
  exact ⟨rfl, rfl, rfl, rfl⟩

/-- C10: the i32 the setter passes to the native uiProgressBarSetValue call
always lies between minus one and 100: it is exactly minus one for
Indeterminate and exactly min v 100 for Determinate v (the u32 to i32 cast of
the capped value is exact, so it never overflows), and set_value passes
exactly this value to the native call on the wrapped handle. -/
theorem set_value_sys_range (pb : ProgressBar) (val : ProgressBarValue) :
    -1 ≤ sysValueOf val ∧ sysValueOf val ≤ 100 ∧
    sysValueOf ProgressBarValue.Indeterminate = -1 ∧
    (∀ v, sysValueOf (ProgressBarValue.Determinate v) = ((min v 100 : Nat) : Int)) ∧
    pb.set_value val = NativeCall.progressBarSetValueC pb.uiProgressBar (sysValueOf val) := by
  have hdet : ∀ v, sysValueOf (ProgressBarValue.Determinate v) = ((min v 100 : Nat) : Int) := by
    intro v
    by_cases hle : v ≤ 100
    · have hgt : ¬ (v > 100) := by omega
      have hm : min v 100 = v := Nat.min_eq_left hle
      rw [hm]
      simp only [sysValueOf, if_neg hgt, castU32ToI32]
      rw [if_pos (by omega)]
    · have hgt : v > 100 := by omega
      have hm : min v 100 = 100 := Nat.min_eq_right (by omega)
      rw [hm]
      simp only [sysValueOf, if_pos hgt, castU32ToI32]
      rw [if_pos (by norm_num)]
  refine ⟨?_, ?_, rfl, hdet, rfl⟩
  · cases val with
    | Indeterminate => norm_num [sysValueOf]
    | Determinate v =>
      rw [hdet v]
      omega
  · cases val with
    | Indeterminate => norm_num [sysValueOf]
    | Determinate v =>
      rw [hdet v]
      have : min v 100 ≤ 100 := Nat.min_le_right v 100
      omega
